import Mathlib

/-!
Shallow embedding of `src/Faster_RCNN/utils/transform.py`
(`GeneralizedRCNNTransform` and the free function `resize_boxes`).

Conventions of the embedding:
* Python floats are modelled by `ℚ` (the claims speak of exact values over
  rationals, or of values "within floating-point tolerance").
* Tensors are modelled structurally: an image is its shape together with a
  total pixel function, a batch is its shape together with a pixel function
  over (slot, channel, row, column).
* Fallible code (indexing an empty list, `raise ValueError`, `assert`)
  is modelled with `Option` / `Except`.
* `F.interpolate(image[None], scale_factor=sf, mode='bilinear')` produces an
  output whose spatial size is `floor(input_size * sf)` per axis and keeps the
  channel count; only this shape behaviour is needed by the claims, so the
  embedding records the resized shape and leaves the interpolated pixel
  values abstract.
-/

/-- Configuration held by `GeneralizedRCNNTransform.__init__`: `self.min_size`
(a tuple of candidate minimum edge lengths) and `self.max_size` (the maximum
allowed edge length).  `image_mean` / `image_std` only feed `normalize`,
which no claim touches, so they are omitted. -/
structure TransformCfg where
  min_size : List ℚ
  max_size : ℚ

/-- The edge-length selection at the top of `resize` (transform.py lines
58-62): in training mode `torch_choice` draws a uniformly random index into
`self.min_size` (modelled by the explicit `randomIdx` argument); in
inference mode the code takes `self.min_size[-1]`, the last element. -/
def selectSize (cfg : TransformCfg) (training : Bool) (randomIdx : ℕ) : ℚ :=
  if training then cfg.min_size.getD randomIdx 0
  else (cfg.min_size.getLast?).getD 0

/-- The scale-factor computation of `resize` (transform.py lines 54-67) for an
image of height `h` and width `w`:
`scale_factor = size / min(h, w)`, and if `max(h, w) * scale_factor`
exceeds `self.max_size` the factor is recomputed as
`self.max_size / max(h, w)`. -/
def scaleFactor (cfg : TransformCfg) (size : ℚ) (h w : ℕ) : ℚ :=
  let mn : ℚ := min (h : ℚ) (w : ℚ)
  let mx : ℚ := max (h : ℚ) (w : ℚ)
  let sf : ℚ := size / mn
  if cfg.max_size < mx * sf then cfg.max_size / mx else sf

/-- Spatial shape produced by `F.interpolate(..., scale_factor=sf)` in
`resize` (transform.py lines 72-74): each spatial dimension becomes
`floor(dim * sf)`. -/
def resizedHW (cfg : TransformCfg) (size : ℚ) (h w : ℕ) : ℕ × ℕ :=
  let sf := scaleFactor cfg size h w
  ((⌊(h : ℚ) * sf⌋).toNat, (⌊(w : ℚ) * sf⌋).toNat)

/-- Full shape `[c, h, w] -> [c, h', w']` of the resized image: interpolation
keeps the channel dimension. -/
def resizedShape (cfg : TransformCfg) (size : ℚ) (c h w : ℕ) : ℕ × ℕ × ℕ :=
  (c, (resizedHW cfg size h w).1, (resizedHW cfg size h w).2)

/-- A bounding box row `(xmin, ymin, xmax, ymax)`, the column order used by
`boxes.unbind(1)` / `torch.stack(..., dim=1)` in `resize_boxes`. -/
structure Box where
  xmin : ℚ
  ymin : ℚ
  xmax : ℚ
  ymax : ℚ
deriving DecidableEq

/-- `resize_boxes(boxes, original_size, new_size)` (transform.py lines
230-253).  Sizes are `(height, width)` pairs, matching the `[h, w]` lists the
callers pass; `ratios = [new / original]` zips heightwise then widthwise, and
each coordinate is scaled by its own axis ratio. -/
def resize_boxes (boxes : List Box) (original_size new_size : ℚ × ℚ) : List Box :=
  let rHeight : ℚ := new_size.1 / original_size.1
  let rWidth : ℚ := new_size.2 / original_size.2
  boxes.map fun b =>
    { xmin := b.xmin * rWidth
      ymin := b.ymin * rHeight
      xmax := b.xmax * rWidth
      ymax := b.ymax * rHeight }

/-- A per-image prediction dict as consumed by `postprocess`: a `boxes` entry
plus the other entries (`labels`, `scores`) produced by the detection head,
which `postprocess` never touches. -/
structure PredDict where
  boxes : List Box
  labels : List ℕ
  scores : List ℚ
deriving DecidableEq

/-- The inference branch of `postprocess` (transform.py lines 143-146):
`for i, (pred, im_s, o_im_s) in enumerate(zip(result, image_shapes,
original_image_sizes)): result[i]["boxes"] = resize_boxes(pred["boxes"],
im_s, o_im_s)`.  Python's `zip` stops at the shortest list and the loop
mutates `result` in place, so entries beyond the shortest length are
returned unchanged. -/
def postprocessLoop : List PredDict → List (ℚ × ℚ) → List (ℚ × ℚ) → List PredDict
  | p :: ps, s :: ss, o :: os =>
      { p with boxes := resize_boxes p.boxes s o } :: postprocessLoop ps ss os
  | ps, _, _ => ps

/-- `postprocess(result, image_shapes, original_image_sizes)` (transform.py
lines 128-147): in training mode the result is returned untouched, otherwise
every prediction's boxes are rescaled from the resized frame `image_shapes[i]`
back to the original frame `original_image_sizes[i]`. -/
def postprocess (training : Bool) (result : List PredDict)
    (image_shapes original_image_sizes : List (ℚ × ℚ)) : List PredDict :=
  if training then result
  else postprocessLoop result image_shapes original_image_sizes

/-- A 3-dimensional image tensor `[channels, height, width]`: its shape plus a
total pixel function (only the values at in-range indices are meaningful). -/
structure Image where
  C : ℕ
  H : ℕ
  W : ℕ
  px : ℕ → ℕ → ℕ → ℚ

/-- A batched tensor `[batch, channels, height, width]`. -/
structure Batch where
  N : ℕ
  C : ℕ
  H : ℕ
  W : ℕ
  px : ℕ → ℕ → ℕ → ℕ → ℚ

/-- `max_by_axis` (transform.py lines 211-217): seeds `maxes` with the first
shape and folds `max` index-wise over the rest.  All call sites pass the
length-3 shape lists `[C, H, W]` of 3-d image tensors, so the index-wise
update is the componentwise max on triples; `the_list[0]` raises `IndexError`
on an empty argument, modelled by `none`. -/
def max_by_axis : List (ℕ × ℕ × ℕ) → Option (ℕ × ℕ × ℕ)
  | [] => none
  | s :: rest =>
      some (rest.foldl
        (fun m t => (max m.1 t.1, max m.2.1 t.2.1, max m.2.2 t.2.2)) s)

/-- `int(math.ceil(float(m) / stride) * stride)` (transform.py lines 107-111):
round `m` up to the next multiple of `stride`, computed through exact
rational division and ceiling. -/
def roundUpToMultiple (m stride : ℕ) : ℕ :=
  (⌈(m : ℚ) / (stride : ℚ)⌉ * stride).toNat

/-- `batch_images(images, size_divisible)` (transform.py lines 88-126), eager
path: take the componentwise max of the image shapes, round height and width
up to multiples of the stride, allocate a zero tensor of shape
`[len(images)] + max_size`, and copy image `i` into the top-left corner of
slot `i` (`pad_img[:c, :h, :w].copy_(img)`).  The empty-list failure of
`max_by_axis` / `images[0]` is propagated as `none`. -/
def batch_images (images : List Image) (size_divisible : ℕ) : Option Batch :=
  match max_by_axis (images.map fun img => (img.C, img.H, img.W)) with
  | none => none
  | some m =>
      some { N := images.length
             C := m.1
             H := roundUpToMultiple m.2.1 size_divisible
             W := roundUpToMultiple m.2.2 size_divisible
             px := fun i c y x =>
               match images[i]? with
               | none => 0
               | some img =>
                   if c < img.C ∧ y < img.H ∧ x < img.W then img.px c y x
                   else 0 }

/-- `_onnx_batch_images(images, size_divisible)` (transform.py lines 188-209),
export path: compute the max along each of the `images[0].dim() = 3` axes
separately, round height and width up to multiples of the stride, pad every
image at the high end of each axis with zeros
(`F.pad(img, [0, padding[2], 0, padding[1], 0, padding[0]])`) and stack the
padded images.  `images[0]` fails on an empty list (`none`). -/
def onnx_batch_images (images : List Image) (size_divisible : ℕ) : Option Batch :=
  match images with
  | [] => none
  | img0 :: rest =>
      let mc := (rest.map Image.C).foldl max img0.C
      let mh := (rest.map Image.H).foldl max img0.H
      let mw := (rest.map Image.W).foldl max img0.W
      some { N := (img0 :: rest).length
             C := mc
             H := roundUpToMultiple mh size_divisible
             W := roundUpToMultiple mw size_divisible
             px := fun i c y x =>
               match (img0 :: rest)[i]? with
               | none => 0
               | some img =>
                   if c < img.C ∧ y < img.H ∧ x < img.W then img.px c y x
                   else 0 }

/-- Errors `forward` (transform.py lines 149-176) can raise, at the shape
level: the `ValueError` of the dim-3 validation check (carrying the offending
shape, which the message interpolates as
`"images is expected to be a list of 3d tensors of shape [C, H, W], got{shape}"`),
the `IndexError` raised by `self.min_size[-1]` / `torch_choice` on an empty
`min_size` tuple and by `batch_images` on an empty image list, the
`ZeroDivisionError` of `size / min(h, w)` on a zero-sized edge, the runtime
error `F.interpolate` raises for a non-positive output size, and the
`AssertionError` of `assert len(image_size) == 2`. -/
inductive FwdErr where
  | valueError (shape : List ℕ)
  | indexError
  | zeroDivisionError
  | interpolateError
  | assertionError
deriving DecidableEq

/-- The resize step of `forward` for one already-validated 3-d image, at the
shape level, with the code's error paths in source order (transform.py lines
54-74): the edge selection (`torch_choice(self.min_size)` in training,
`self.min_size[-1]` in inference) raises `IndexError` on an empty tuple;
`scale_factor = size / min(h, w)` raises `ZeroDivisionError` when
`min(h, w) = 0` (the subsequent `self.max_size / max(h, w)` then has a
positive divisor); and `F.interpolate` rejects a non-positive output size
(`resizedHW`'s `Int.toNat` sends the negative floors of a non-positive scale
to `0`, so `= 0` captures every non-positive output).  On success the shape
`[c, h, w]` becomes `[c, h', w']` with `(h', w') = resizedHW`. -/
def resizeStepShape (cfg : TransformCfg) (training : Bool) (randomIdx : ℕ)
    (c h w : ℕ) : Except FwdErr (ℕ × ℕ × ℕ) :=
  if cfg.min_size = [] then .error .indexError
  else if min h w = 0 then .error .zeroDivisionError
  else
    let hw := resizedHW cfg (selectSize cfg training randomIdx) h w
    if hw.1 = 0 ∨ hw.2 = 0 then .error .interpolateError
    else .ok (c, hw.1, hw.2)

/-- The per-image loop of `forward` (lines 151-162) at the shape level: each
image is checked to be 3-dimensional (else `ValueError` with its shape),
normalized (shape-preserving), and resized, where the resize step can itself
fail with a non-validation error that aborts the loop before later images
are validated. -/
def forwardLoop (cfg : TransformCfg) (training : Bool) (randomIdx : ℕ) :
    List (List ℕ) → Except FwdErr (List (List ℕ))
  | [] => .ok []
  | shape :: rest =>
      match shape with
      | [c, h, w] =>
          match resizeStepShape cfg training randomIdx c h w with
          | .error err => .error err
          | .ok t =>
              (forwardLoop cfg training randomIdx rest).map
                (fun l => [t.1, t.2.1, t.2.2] :: l)
      | other => .error (.valueError other)

/-- `image_sizes_list` construction (lines 170-173): for every resized image,
take `img.shape[-2:]` and `assert len(image_size) == 2` before appending
`(image_size[0], image_size[1])`. -/
def assertSizes : List (List ℕ) → Except FwdErr (List (ℕ × ℕ))
  | [] => .ok []
  | shape :: rest =>
      match shape.drop (shape.length - 2) with
      | [a, b] => (assertSizes rest).map (fun l => (a, b) :: l)
      | _ => .error .assertionError

/-- `batch_images` reduced to shapes, as invoked from `forward` (line 168)
with the default `size_divisible = 32`: only the resulting batch shape is
tracked here (the pixel-level behaviour is `batch_images` above). -/
def batchShape (shapes : List (ℕ × ℕ × ℕ)) (size_divisible : ℕ) :
    Option (ℕ × ℕ × ℕ × ℕ) :=
  match max_by_axis shapes with
  | none => none
  | some m =>
      some (shapes.length, m.1,
        roundUpToMultiple m.2.1 size_divisible,
        roundUpToMultiple m.2.2 size_divisible)

/-- Helper for `forwardShapes`: view a validated length-3 shape list as a
triple (every shape reaching this point is `[c, h, w]`; the fallback is
unreachable there). -/
def toTriple : List ℕ → ℕ × ℕ × ℕ
  | [c, h, w] => (c, h, w)
  | _ => (0, 0, 0)

/-- `forward(images, targets)` at the shape level (transform.py lines
149-176): validate/normalize/resize each image, record the resized sizes,
batch the images with stride 32, and build `image_sizes_list` under the
length-2 assert.  Returns the batched tensor shape paired with the per-image
resized `(height, width)` list. -/
def forwardShapes (cfg : TransformCfg) (training : Bool) (randomIdx : ℕ)
    (shapes : List (List ℕ)) :
    Except FwdErr ((ℕ × ℕ × ℕ × ℕ) × List (ℕ × ℕ)) := do
  let resized ← forwardLoop cfg training randomIdx shapes
  let batched ← match batchShape (resized.map toTriple) 32 with
    | none => .error .indexError
    | some b => .ok b
  let sizes ← assertSizes resized
  .ok (batched, sizes)

/-- Spec-side description of a single `postprocess` entry in inference mode:
the output at index `i` is a function of the input entry and the two sizes at
index `i` alone — rescaled boxes when all three are present, the untouched
prediction otherwise. -/
def postprocessEntrySpec (p? : Option PredDict) (s? o? : Option (ℚ × ℚ)) :
    Option PredDict :=
  match p?, s?, o? with
  | some p, some s, some o => some { p with boxes := resize_boxes p.boxes s o }
  | p?, _, _ => p?

/-! ### Helper lemmas -/

lemma le_foldl_max_init (l : List ℕ) (a : ℕ) : a ≤ l.foldl max a := by
  induction l generalizing a with
  | nil => exact le_refl a
  | cons x xs ih =>
      exact le_trans (le_max_left a x) (ih (max a x))

lemma foldl_max_le_of_mem {l : List ℕ} {x : ℕ} (a : ℕ) (hx : x ∈ l) :
    x ≤ l.foldl max a := by
  induction l generalizing a with
  | nil => cases hx
  | cons y ys ih =>
      rcases List.mem_cons.mp hx with rfl | hmem
      · exact le_trans (le_max_right a x) (le_foldl_max_init ys (max a x))
      · exact ih (max a y) hmem

lemma foldl_max_le {l : List ℕ} {a b : ℕ} (ha : a ≤ b)
    (h : ∀ x ∈ l, x ≤ b) : l.foldl max a ≤ b := by
  induction l generalizing a with
  | nil => exact ha
  | cons y ys ih =>
      exact ih (max_le ha (h y (List.mem_cons_self y ys)))
        (fun x hx => h x (List.mem_cons_of_mem y hx))

lemma foldl_max_mem (l : List ℕ) (a : ℕ) :
    l.foldl max a = a ∨ l.foldl max a ∈ l := by
  induction l generalizing a with
  | nil => exact Or.inl rfl
  | cons y ys ih =>
      rcases ih (max a y) with h | h
      · rcases max_cases a y with ⟨h1, _⟩ | ⟨h1, _⟩
        · exact Or.inl (by simpa [h1] using h)
        · exact Or.inr (by
            rw [List.foldl_cons, h, h1]
            exact List.mem_cons_self y ys)
      · exact Or.inr (List.mem_cons_of_mem y h)

lemma foldl_tripleMax_proj (l : List (ℕ × ℕ × ℕ)) (s : ℕ × ℕ × ℕ) :
    l.foldl (fun m t => (max m.1 t.1, max m.2.1 t.2.1, max m.2.2 t.2.2)) s =
      ((l.map (fun t => t.1)).foldl max s.1,
       (l.map (fun t => t.2.1)).foldl max s.2.1,
       (l.map (fun t => t.2.2)).foldl max s.2.2) := by
  induction l generalizing s with
  | nil => rfl
  | cons t ts ih => simp [List.foldl_cons, ih]

lemma roundUp_ge (m stride : ℕ) (hs : 0 < stride) :
    m ≤ roundUpToMultiple m stride := by
  have hs' : (0 : ℚ) < (stride : ℚ) := by exact_mod_cast hs
  have h1 : ((m : ℚ) / (stride : ℚ)) ≤ ((⌈(m : ℚ) / (stride : ℚ)⌉ : ℤ) : ℚ) :=
    Int.le_ceil _
  have h2 : (m : ℚ) ≤ ((⌈(m : ℚ) / (stride : ℚ)⌉ : ℤ) : ℚ) * (stride : ℚ) :=
    (div_le_iff₀ hs').mp h1
  have h3 : (m : ℤ) ≤ ⌈(m : ℚ) / (stride : ℚ)⌉ * (stride : ℤ) := by
    exact_mod_cast h2
  unfold roundUpToMultiple
  generalize hg : ⌈(m : ℚ) / (stride : ℚ)⌉ * (stride : ℤ) = t at h3 ⊢
  omega

lemma roundUp_dvd (m stride : ℕ) :
    stride ∣ roundUpToMultiple m stride := by
  have hc : (0 : ℤ) ≤ ⌈(m : ℚ) / (stride : ℚ)⌉ :=
    Int.ceil_nonneg (div_nonneg (by positivity) (by positivity))
  refine ⟨(⌈(m : ℚ) / (stride : ℚ)⌉).toNat, ?_⟩
  have : (⌈(m : ℚ) / (stride : ℚ)⌉ * (stride : ℤ)).toNat =
      (⌈(m : ℚ) / (stride : ℚ)⌉).toNat * stride := by
    rcases Int.eq_ofNat_of_zero_le hc with ⟨n, hn⟩
    rw [hn]
    exact_mod_cast rfl
  unfold roundUpToMultiple
  rw [this, Nat.mul_comm]

lemma roundUp_min (m stride k : ℕ) (hs : 0 < stride)
    (hdvd : stride ∣ k) (hk : m ≤ k) : roundUpToMultiple m stride ≤ k := by
  obtain ⟨t, rfl⟩ := hdvd
  have hs' : (0 : ℚ) < (stride : ℚ) := by exact_mod_cast hs
  have h1 : ((m : ℚ) / (stride : ℚ)) ≤ (t : ℚ) := by
    rw [div_le_iff₀ hs']
    have : (m : ℚ) ≤ (stride : ℚ) * (t : ℚ) := by exact_mod_cast hk
    linarith [this]
  have h2 : ⌈(m : ℚ) / (stride : ℚ)⌉ ≤ (t : ℤ) := by
    rw [Int.ceil_le]
    exact_mod_cast h1
  have h3 : ⌈(m : ℚ) / (stride : ℚ)⌉ * (stride : ℤ) ≤ (t : ℤ) * (stride : ℤ) :=
    mul_le_mul_of_nonneg_right h2 (by exact_mod_cast Nat.zero_le stride)
  unfold roundUpToMultiple
  have h4 : ((stride * t : ℕ) : ℤ) = (t : ℤ) * (stride : ℤ) := by push_cast; ring
  generalize hg : ⌈(m : ℚ) / (stride : ℚ)⌉ * (stride : ℤ) = u at h3 ⊢
  omega

/-- Entrywise description of `postprocessLoop`: entry `i` of the output is
entry `i` of the input with its boxes rescaled by the sizes at index `i`,
and is left untouched when one of the three lists has no index `i`. -/
lemma postprocessLoop_getElem (result : List PredDict)
    (ss os : List (ℚ × ℚ)) (i : ℕ) :
    (postprocessLoop result ss os)[i]? =
      match result[i]?, ss[i]?, os[i]? with
      | some p, some s, some o =>
          some { p with boxes := resize_boxes p.boxes s o }
      | p?, _, _ => p? := by
  induction result generalizing ss os i with
  | nil => cases ss <;> cases os <;> simp [postprocessLoop]
  | cons p ps ih =>
      cases ss with
      | nil => simp [postprocessLoop]
      | cons s ss2 =>
          cases os with
          | nil => simp [postprocessLoop]
          | cons o os2 =>
              cases i with
              | zero => simp [postprocessLoop]
              | succ n => simpa [postprocessLoop] using ih ss2 os2 n

/-- In a `≤`-sorted list every element is at most the last element
(read through `getLast?` with default `0`, the way `selectSize` reads it). -/
lemma sorted_le_getLastD {l : List ℚ}
    (hs : l.Sorted (fun a b => a ≤ b)) {x : ℚ} (hx : x ∈ l) :
    x ≤ (l.getLast?).getD 0 := by
  induction l with
  | nil => cases hx
  | cons a t ih =>
      rcases List.sorted_cons.mp hs with ⟨ha, ht⟩
      cases t with
      | nil =>
          rw [List.mem_singleton.mp hx]
          simp
      | cons b t2 =>
          have hgl : ((a :: b :: t2).getLast?) = ((b :: t2).getLast?) := by
            simp [List.getLast?_cons_cons]
          rw [hgl]
          rcases List.mem_cons.mp hx with rfl | hx2
          · have hne : (b :: t2) ≠ [] := List.cons_ne_nil b t2
            rw [List.getLast?_eq_getLast_of_ne_nil hne]
            exact ha _ (List.getLast_mem hne)
          · exact ih ht hx2

/-- `resizeStepShape` only fails with resize-side errors, never with the
validation `ValueError` or the `AssertionError`. -/
lemma resizeStepShape_errors (cfg : TransformCfg) (training : Bool)
    (randomIdx c h w : ℕ) (err : FwdErr)
    (hstep : resizeStepShape cfg training randomIdx c h w = .error err) :
    (∀ sh, err ≠ .valueError sh) ∧ err ≠ .assertionError := by
  have herr : err = .indexError ∨ err = .zeroDivisionError ∨
      err = .interpolateError := by
    unfold resizeStepShape at hstep
    split_ifs at hstep with h1 h2
    · exact Or.inl (by cases hstep; rfl)
    · exact Or.inr (Or.inl (by cases hstep; rfl))
    · have hstep2 :
          (if (resizedHW cfg (selectSize cfg training randomIdx) h w).1 = 0 ∨
              (resizedHW cfg (selectSize cfg training randomIdx) h w).2 = 0
           then (Except.error FwdErr.interpolateError :
             Except FwdErr (ℕ × ℕ × ℕ))
           else Except.ok
             (c, (resizedHW cfg (selectSize cfg training randomIdx) h w).1,
               (resizedHW cfg (selectSize cfg training randomIdx) h w).2)) =
            Except.error err := hstep
      split_ifs at hstep2 with h3
      exact Or.inr (Or.inr (by cases hstep2; rfl))
  rcases herr with rfl | rfl | rfl <;> exact ⟨fun sh => by simp, by simp⟩

/-- Case analysis for the per-image loop of `forward`: either every shape is
3-dimensional, every resize step succeeds and the loop returns resized
3-dimensional shapes; or the loop raises the validation `ValueError`
carrying a non-3-dimensional shape of the input; or some 3-dimensional
image's resize step fails first and its (non-validation) error aborts the
loop. -/
lemma forwardLoop_cases (cfg : TransformCfg) (training : Bool)
    (randomIdx : ℕ) (shapes : List (List ℕ)) :
    ((∃ r, forwardLoop cfg training randomIdx shapes = .ok r ∧
        r.length = shapes.length ∧ ∀ s ∈ r, ∃ c h w, s = [c, h, w]) ∧
      ∀ s ∈ shapes, s.length = 3) ∨
    (∃ e, forwardLoop cfg training randomIdx shapes = .error (.valueError e) ∧
      e.length ≠ 3 ∧ e ∈ shapes) ∨
    (∃ err, forwardLoop cfg training randomIdx shapes = .error err ∧
      (∀ sh, err ≠ .valueError sh) ∧ err ≠ .assertionError ∧
      ∃ c h w, [c, h, w] ∈ shapes ∧
        resizeStepShape cfg training randomIdx c h w = .error err) := by
  induction shapes with
  | nil =>
      exact Or.inl ⟨⟨[], rfl, rfl, by simp⟩, by simp⟩
  | cons shape rest ih =>
      rcases shape with _ | ⟨c, _ | ⟨h, _ | ⟨w, _ | ⟨d, t⟩⟩⟩⟩
      · exact Or.inr (Or.inl ⟨[], by simp [forwardLoop], by simp, by simp⟩)
      · exact Or.inr (Or.inl ⟨[c], by simp [forwardLoop], by simp, by simp⟩)
      · exact Or.inr (Or.inl ⟨[c, h], by simp [forwardLoop], by simp, by simp⟩)
      · cases hstep : resizeStepShape cfg training randomIdx c h w with
        | error err =>
            obtain ⟨hnv, hna⟩ :=
              resizeStepShape_errors cfg training randomIdx c h w err hstep
            refine Or.inr (Or.inr ⟨err, ?_, hnv, hna, c, h, w,
              List.mem_cons_self _ _, hstep⟩)
            simp [forwardLoop, hstep]
        | ok t =>
            rcases ih with ⟨⟨r, hr, hlen, hforms⟩, hall⟩ |
              ⟨e, he, he3, hemem⟩ |
              ⟨err, herr, hnv2, hna2, c2, h2, w2, hmem2, hstep2⟩
            · refine Or.inl ⟨⟨[t.1, t.2.1, t.2.2] :: r, ?_, by simp [hlen], ?_⟩, ?_⟩
              · simp [forwardLoop, hstep, hr, Except.map]
              · intro s hsmem
                rcases List.mem_cons.mp hsmem with rfl | hsr
                · exact ⟨t.1, t.2.1, t.2.2, rfl⟩
                · exact hforms s hsr
              · intro s hsmem
                rcases List.mem_cons.mp hsmem with rfl | hsr
                · rfl
                · exact hall s hsr
            · refine Or.inr (Or.inl ⟨e, ?_, he3, List.mem_cons_of_mem _ hemem⟩)
              simp [forwardLoop, hstep, he, Except.map]
            · refine Or.inr (Or.inr ⟨err, ?_, hnv2, hna2, c2, h2, w2,
                List.mem_cons_of_mem _ hmem2, hstep2⟩)
              simp [forwardLoop, hstep, herr, Except.map]
      · exact Or.inr (Or.inl ⟨c :: h :: w :: d :: t, by simp [forwardLoop],
          by simp, by simp⟩)

/-- When every resized shape is of the form `[c, h, w]`, the
`assert len(image_size) == 2` loop succeeds. -/
lemma assertSizes_ok (r : List (List ℕ))
    (hr : ∀ s ∈ r, ∃ c h w, s = [c, h, w]) :
    ∃ l, assertSizes r = .ok l := by
  induction r with
  | nil => exact ⟨[], rfl⟩
  | cons s t ih =>
      obtain ⟨c, h, w, rfl⟩ := hr s (List.mem_cons_self s t)
      obtain ⟨l, hl⟩ := ih (fun s2 hs2 => hr s2 (List.mem_cons_of_mem _ hs2))
      exact ⟨(h, w) :: l, by simp [assertSizes, hl, Except.map]⟩

/-- `batchShape` succeeds exactly on non-empty shape lists. -/
lemma batchShape_of_ne_nil (shapes : List (ℕ × ℕ × ℕ)) (stride : ℕ)
    (hne : shapes ≠ []) : ∃ b, batchShape shapes stride = some b := by
  cases shapes with
  | nil => exact absurd rfl hne
  | cons s rest => exact ⟨_, rfl⟩

/-! ### Claims -/

/-- C1: for every image of height `h` and width `w`, `resize` computes the
scale factor as `selected_min_edge / min(h, w)` and switches to
`max_size / max(h, w)` when the max edge scaled by the first factor would
exceed the configured `max_size`; for the example image `[3, 600, 800]` with
`min_size = (480, 512, 544, 576, 608, 640)` and `max_size = 1000` in
inference mode, the selected minimum edge is `640`, the scale factor is
`640 / 600`, and the resized shape is `[3, 640, 853]`
(`800 * 640 / 600 = 853.33… < 1000`, and bilinear interpolation floors). -/
theorem c1_resize_scale_factor (cfg : TransformCfg) (size : ℚ) (h w : ℕ)
    (_hh : 0 < h) (_hw : 0 < w) :
    (scaleFactor cfg size h w =
      if cfg.max_size < max (h : ℚ) (w : ℚ) * (size / min (h : ℚ) (w : ℚ))
      then cfg.max_size / max (h : ℚ) (w : ℚ)
      else size / min (h : ℚ) (w : ℚ)) ∧
    selectSize { min_size := [480, 512, 544, 576, 608, 640], max_size := 1000 }
      false 0 = 640 ∧
    scaleFactor { min_size := [480, 512, 544, 576, 608, 640], max_size := 1000 }
      640 600 800 = 640 / 600 ∧
    resizedShape { min_size := [480, 512, 544, 576, 608, 640], max_size := 1000 }
      640 3 600 800 = (3, 640, 853) := by
  refine ⟨rfl, ?_, ?_, ?_⟩
  · norm_num [selectSize]
  · norm_num [scaleFactor]
  · norm_num [resizedShape, resizedHW, scaleFactor]
    decide

/-- Witness for C1 at the spec's example image. -/
theorem c1_witness :
    resizedShape { min_size := [480, 512, 544, 576, 608, 640], max_size := 1000 }
      640 3 600 800 = (3, 640, 853) :=
  (c1_resize_scale_factor
    { min_size := [480, 512, 544, 576, 608, 640], max_size := 1000 }
    640 600 800 (by norm_num) (by norm_num)).2.2.2

/-- C3: `resize_boxes` multiplies each box's `xmin` and `xmax` by the width
ratio `new_w / old_w` and each box's `ymin` and `ymax` by the independent
height ratio `new_h / old_h`, preserving the `(xmin, ymin, xmax, ymax)`
column order; boxes `[[10, 10, 50, 50]]` on a 600×800 image resized to
640×853 become `[[10*853/800, 10*640/600, 50*853/800, 50*640/600]]`. -/
theorem c3_resize_boxes_axiswise (boxes : List Box) (oh ow nh nw : ℚ) :
    (resize_boxes boxes (oh, ow) (nh, nw)).length = boxes.length ∧
    (∀ (i : ℕ) (b : Box), boxes[i]? = some b →
      (resize_boxes boxes (oh, ow) (nh, nw))[i]? =
        some (Box.mk (b.xmin * (nw / ow)) (b.ymin * (nh / oh))
          (b.xmax * (nw / ow)) (b.ymax * (nh / oh)))) ∧
    resize_boxes [⟨10, 10, 50, 50⟩] (600, 800) (640, 853) =
      [⟨10 * 853 / 800, 10 * 640 / 600, 50 * 853 / 800, 50 * 640 / 600⟩] := by
  refine ⟨by simp [resize_boxes], ?_, by norm_num [resize_boxes]⟩
  intro i b hb
  simp [resize_boxes, List.getElem?_map, hb]

/-- Witness for C3 at a concrete box list and size pair. -/
theorem c3_witness :
    (resize_boxes [⟨1, 2, 3, 4⟩] (2, 4) (3, 5))[0]? =
      some (Box.mk (1 * ((5 : ℚ) / 4)) (2 * ((3 : ℚ) / 2))
        (3 * ((5 : ℚ) / 4)) (4 * ((3 : ℚ) / 2))) :=
  (c3_resize_boxes_axiswise [⟨1, 2, 3, 4⟩] 2 4 3 5).2.1 0 ⟨1, 2, 3, 4⟩ rfl

/-- C4: applying `resize_boxes` from the original size to a new size and then
back from the new size to the original size reproduces the original boxes
exactly over the rationals, for any non-degenerate sizes. -/
theorem c4_resize_boxes_roundtrip (boxes : List Box) (oh ow nh nw : ℚ)
    (ho1 : oh ≠ 0) (ho2 : ow ≠ 0) (hn1 : nh ≠ 0) (hn2 : nw ≠ 0) :
    resize_boxes (resize_boxes boxes (oh, ow) (nh, nw)) (nh, nw) (oh, ow) =
      boxes := by
  simp only [resize_boxes, List.map_map]
  conv_rhs => rw [← List.map_id boxes]
  refine List.map_congr_left ?_
  intro b _
  cases b with
  | mk x1 y1 x2 y2 =>
      simp only [Function.comp_apply, id_eq]
      congr 1 <;> field_simp

/-- Witness for C4 at a concrete box list and non-degenerate sizes. -/
theorem c4_witness :
    resize_boxes (resize_boxes [⟨1, 2, 3, 4⟩] (2, 3) (4, 5)) (4, 5) (2, 3) =
      [⟨1, 2, 3, 4⟩] :=
  c4_resize_boxes_roundtrip [⟨1, 2, 3, 4⟩] 2 3 4 5
    (by norm_num) (by norm_num) (by norm_num) (by norm_num)

/-- C5: `postprocess` in training mode returns the prediction list unmodified
(identity law); in inference mode the prediction at every index `i` covered
by all three lists has its boxes replaced with
`resize_boxes boxes image_shapes[i] original_image_sizes[i]`, rescaling them
from the resized coordinate frame back to the original frame. -/
theorem c5_postprocess_modes (result : List PredDict)
    (image_shapes original_image_sizes : List (ℚ × ℚ)) :
    postprocess true result image_shapes original_image_sizes = result ∧
    (∀ (i : ℕ) (p : PredDict) (s o : ℚ × ℚ),
      result[i]? = some p → image_shapes[i]? = some s →
      original_image_sizes[i]? = some o →
      (postprocess false result image_shapes original_image_sizes)[i]? =
        some { p with boxes := resize_boxes p.boxes s o }) := by
  refine ⟨rfl, ?_⟩
  intro i p s o hp hs ho
  rw [show postprocess false result image_shapes original_image_sizes =
        postprocessLoop result image_shapes original_image_sizes from rfl,
    postprocessLoop_getElem, hp, hs, ho]

/-- Witness for C5 at a concrete prediction list in inference mode. -/
theorem c5_witness :
    (postprocess false [⟨[⟨1, 2, 3, 4⟩], [7], [1 / 2]⟩] [(2, 3)] [(4, 5)])[0]? =
      some { (⟨[⟨1, 2, 3, 4⟩], [7], [1 / 2]⟩ : PredDict) with
             boxes := resize_boxes [⟨1, 2, 3, 4⟩] (2, 3) (4, 5) } :=
  (c5_postprocess_modes [⟨[⟨1, 2, 3, 4⟩], [7], [1 / 2]⟩] [(2, 3)] [(4, 5)]).2
    0 ⟨[⟨1, 2, 3, 4⟩], [7], [1 / 2]⟩ (2, 3) (4, 5) rfl rfl rfl

/-- C6 counterexample: with the configuration `min_size = (640, 480)` the
inference-mode selection is `480` — the last element — and not the largest
value of the configured set, since `640` belongs to the set and exceeds
`480`.  This refutes "selects the largest value … for every configured
min_size set". -/
theorem c6_counterexample :
    selectSize { min_size := [640, 480], max_size := 1000 } false 0 = 480 ∧
    ¬ (∀ x ∈ ({ min_size := [640, 480], max_size := 1000 } :
          TransformCfg).min_size,
        x ≤ selectSize { min_size := [640, 480], max_size := 1000 } false 0) := by
  have hsel :
      selectSize { min_size := [640, 480], max_size := 1000 } false 0 = 480 := by
    norm_num [selectSize]
  refine ⟨hsel, fun hall => ?_⟩
  have h1 := hall 640 (List.mem_cons_self 640 [480])
  rw [hsel] at h1
  norm_num at h1

/-- C6 (amended): in inference mode `resize` deterministically selects the
last element of the configured non-empty `min_size` tuple — the selection
does not depend on the random index that training mode would draw — for
every configuration; and whenever the tuple is additionally sorted in
non-decreasing order (as in the example configuration) that last element is
the largest configured minimum edge. -/
theorem c6_inference_selection (cfg : TransformCfg) (i j : ℕ)
    (hne : cfg.min_size ≠ []) :
    selectSize cfg false i = selectSize cfg false j ∧
    selectSize cfg false i = cfg.min_size.getLast hne ∧
    (cfg.min_size.Sorted (fun a b => a ≤ b) →
      ∀ x ∈ cfg.min_size, x ≤ selectSize cfg false i) := by
  refine ⟨rfl, ?_, ?_⟩
  · show (cfg.min_size.getLast?).getD 0 = cfg.min_size.getLast hne
    rw [List.getLast?_eq_getLast_of_ne_nil hne]
    rfl
  · intro hsorted x hx
    exact sorted_le_getLastD hsorted hx

/-- Witness for C6 (amended): last-element selection at the unsorted
configuration `(640, 480)` the correction is about, and dominance at the
sorted example configuration. -/
theorem c6_witness :
    selectSize { min_size := [640, 480], max_size := 1000 } false 0 =
      ({ min_size := [640, 480], max_size := 1000 } :
        TransformCfg).min_size.getLast (List.cons_ne_nil _ _) ∧
    (608 : ℚ) ≤ selectSize
      { min_size := [480, 512, 544, 576, 608, 640], max_size := 1000 }
      false 0 :=
  ⟨(c6_inference_selection { min_size := [640, 480], max_size := 1000 } 0 5
      (List.cons_ne_nil _ _)).2.1,
   (c6_inference_selection
      { min_size := [480, 512, 544, 576, 608, 640], max_size := 1000 } 0 5
      (List.cons_ne_nil _ _)).2.2
      (by norm_num [List.sorted_cons]) 608 (by norm_num)⟩

/-- C7 counterexample: with the empty `min_size` tuple and the input shapes
`[[1, 2, 3], [4, 5]]`, the first image passes the dim-3 check and its resize
raises `IndexError` at `self.min_size[-1]` before the non-3-dimensional
shape `[4, 5]` is ever validated: an offending shape exists but no
input-validation `ValueError` is raised, refuting the claimed "if and only
if". -/
theorem c7_counterexample :
    (∃ s ∈ [[1, 2, 3], [4, 5]], s.length ≠ 3) ∧
    forwardShapes { min_size := [], max_size := 1000 } false 0
      [[1, 2, 3], [4, 5]] = .error .indexError ∧
    ∀ e, forwardShapes { min_size := [], max_size := 1000 } false 0
      [[1, 2, 3], [4, 5]] ≠ .error (.valueError e) := by
  refine ⟨⟨[4, 5], by simp, by decide⟩, rfl, ?_⟩
  intro e hcontra
  rw [show forwardShapes { min_size := [], max_size := 1000 } false 0
      [[1, 2, 3], [4, 5]] = .error .indexError from rfl] at hcontra
  simp at hcontra

/-- C7 (amended): `forward` raises its input-validation `ValueError` only if
some input image's shape is not exactly 3-dimensional, and the raised error
carries (and the message names) the shape of an offending image; conversely,
whenever the per-image resize step raises no error on the 3-dimensional
images of the input (non-empty `min_size` tuple, non-zero minimum edge,
positive interpolated output sizes), the `ValueError` is raised exactly when
some image's shape is not 3-dimensional; and the only other explicit check
in the pipeline — `assert len(image_size) == 2` — can never fire.  (The
`IndexError` that `batch_images` encounters on an empty input list is an
unguarded failure, not an explicit validation check; see C10.) -/
theorem c7_forward_validation (cfg : TransformCfg) (training : Bool)
    (randomIdx : ℕ) (shapes : List (List ℕ)) :
    (∀ e, forwardShapes cfg training randomIdx shapes =
        .error (.valueError e) → e.length ≠ 3 ∧ e ∈ shapes) ∧
    ((∀ c h w, [c, h, w] ∈ shapes →
        ∃ t, resizeStepShape cfg training randomIdx c h w = .ok t) →
      ((∃ e, forwardShapes cfg training randomIdx shapes =
          .error (.valueError e)) ↔ ∃ s ∈ shapes, s.length ≠ 3)) ∧
    forwardShapes cfg training randomIdx shapes ≠ .error .assertionError := by
  rcases forwardLoop_cases cfg training randomIdx shapes with
    ⟨⟨r, hr, hlen, hforms⟩, hall⟩ | ⟨e, he, he3, hemem⟩ |
    ⟨err, herr, hnv, hna, c, h, w, hmem, hstep⟩
  · by_cases hrnil : r = []
    · have hshapes : shapes = [] := by
        rw [hrnil] at hlen
        exact (List.length_eq_zero.mp hlen.symm)
      subst hshapes
      have hfw : forwardShapes cfg training randomIdx [] =
          .error .indexError := by
        rfl
      refine ⟨?_, ?_, ?_⟩
      · intro e2 he2; rw [hfw] at he2; simp at he2
      · intro _; rw [hfw]; simp
      · rw [hfw]; simp
    · obtain ⟨b, hb⟩ := batchShape_of_ne_nil (r.map toTriple) 32
        (by simpa using hrnil)
      obtain ⟨l, hl⟩ := assertSizes_ok r hforms
      have hfw : forwardShapes cfg training randomIdx shapes = .ok (b, l) := by
        simp [forwardShapes, Bind.bind, Except.bind, hr, hb, hl]
      refine ⟨?_, ?_, ?_⟩
      · intro e2 he2; rw [hfw] at he2; simp at he2
      · intro _
        rw [hfw]
        constructor
        · rintro ⟨e2, he2⟩; simp at he2
        · rintro ⟨s, hsmem, hs3⟩; exact absurd (hall s hsmem) hs3
      · rw [hfw]; simp
  · have hfw : forwardShapes cfg training randomIdx shapes =
        .error (.valueError e) := by
      simp [forwardShapes, Bind.bind, Except.bind, he]
    refine ⟨?_, ?_, ?_⟩
    · intro e2 he2
      rw [hfw] at he2
      simp only [Except.error.injEq, FwdErr.valueError.injEq] at he2
      rw [← he2]
      exact ⟨he3, hemem⟩
    · exact fun _ => ⟨fun _ => ⟨e, hemem, he3⟩, fun _ => ⟨e, hfw⟩⟩
    · rw [hfw]; simp
  · have hfw : forwardShapes cfg training randomIdx shapes = .error err := by
      simp [forwardShapes, Bind.bind, Except.bind, herr]
    refine ⟨?_, ?_, ?_⟩
    · intro e2 he2
      rw [hfw] at he2
      simp only [Except.error.injEq] at he2
      exact absurd he2 (hnv e2)
    · intro hres
      obtain ⟨t, ht⟩ := hres c h w hmem
      rw [ht] at hstep
      exact absurd hstep (by simp)
    · rw [hfw]
      intro hcc
      simp only [Except.error.injEq] at hcc
      exact hna hcc

/-- Witness for C7 (amended): on the input `[[3, 4], [1, 2, 3]]` with
`min_size = (640,)` the resize step succeeds on the only 3-dimensional image
and the non-3-dimensional shape `[3, 4]` makes `forward` raise the
`ValueError`. -/
theorem c7_witness :
    ∃ e, forwardShapes { min_size := [640], max_size := 1000 } false 0
      [[3, 4], [1, 2, 3]] = .error (.valueError e) :=
  ((c7_forward_validation { min_size := [640], max_size := 1000 } false 0
      [[3, 4], [1, 2, 3]]).2.1 (by
        intro c h w hmem
        rcases List.mem_cons.mp hmem with h1 | h2
        · exact absurd h1 (by simp)
        · obtain ⟨rfl, rfl, rfl⟩ : c = 1 ∧ h = 2 ∧ w = 3 := by
            simpa using List.mem_singleton.mp h2
          refine ⟨(1, 640, 960), ?_⟩
          have hsel : selectSize { min_size := [640], max_size := 1000 }
              false 0 = 640 := by norm_num [selectSize]
          have hhw : resizedHW { min_size := [640], max_size := 1000 }
              640 2 3 = (640, 960) := by
            norm_num [resizedHW, scaleFactor]
            decide
          rw [show resizeStepShape { min_size := [640], max_size := 1000 }
              false 0 1 2 3 =
              (if ({ min_size := [640], max_size := 1000 } :
                  TransformCfg).min_size = [] then .error .indexError
               else if min 2 3 = 0 then .error .zeroDivisionError
               else
                 let hw := resizedHW { min_size := [640], max_size := 1000 }
                   (selectSize { min_size := [640], max_size := 1000 } false 0)
                   2 3
                 if hw.1 = 0 ∨ hw.2 = 0 then .error .interpolateError
                 else .ok (1, hw.1, hw.2)) from rfl, hsel, hhw]
          norm_num)).mpr
    ⟨[3, 4], by simp, by decide⟩

/-- C10: `batch_images` requires a non-empty image list: on the empty list
`max_by_axis` indexes `the_list[0]` out of bounds and the allocation
`images[0].new_full` is unreachable (modelled as `none`), while for every
non-empty list the indexing is in bounds and batching succeeds. -/
theorem c10_batch_images_nonempty (size_divisible : ℕ) :
    batch_images [] size_divisible = none ∧
    ∀ images : List Image, images ≠ [] →
      (batch_images images size_divisible).isSome := by
  refine ⟨rfl, ?_⟩
  intro images hne
  cases images with
  | nil => exact absurd rfl hne
  | cons img0 rest => rfl

/-- Witness for C10 on a concrete singleton image list. -/
theorem c10_witness :
    (batch_images [⟨3, 2, 2, fun _ _ _ => 1⟩] 32).isSome :=
  (c10_batch_images_nonempty 32).2 [⟨3, 2, 2, fun _ _ _ => 1⟩]
    (List.cons_ne_nil _ _)

/-- C9: in inference mode `postprocess` modifies only the `boxes` entry of
each per-image prediction: `labels` and `scores` of every prediction are
unchanged, and the prediction at index `i` is updated using only the
prediction and the sizes at index `i`. -/
theorem c9_postprocess_frame (result : List PredDict)
    (image_shapes original_image_sizes : List (ℚ × ℚ)) (i : ℕ) :
    (postprocess false result image_shapes original_image_sizes)[i]? =
      postprocessEntrySpec result[i]? image_shapes[i]? original_image_sizes[i]? ∧
    ((postprocess false result image_shapes original_image_sizes)[i]?).map
      PredDict.labels = (result[i]?).map PredDict.labels ∧
    ((postprocess false result image_shapes original_image_sizes)[i]?).map
      PredDict.scores = (result[i]?).map PredDict.scores := by
  have hmain :
      (postprocess false result image_shapes original_image_sizes)[i]? =
        postprocessEntrySpec result[i]? image_shapes[i]?
          original_image_sizes[i]? := by
    rw [show postprocess false result image_shapes original_image_sizes =
          postprocessLoop result image_shapes original_image_sizes from rfl,
      postprocessLoop_getElem]
    rfl
  refine ⟨hmain, ?_, ?_⟩ <;> rw [hmain] <;>
    rcases hp : result[i]? with _ | p <;>
    rcases hs : image_shapes[i]? with _ | s <;>
    rcases ho : original_image_sizes[i]? with _ | o <;>
    simp [postprocessEntrySpec]

/-- C8: the export-compatible path `_onnx_batch_images` produces exactly the
same batched tensor as the eager `batch_images` for every image list and
stride: the same padded shape and the same element values (original pixels
top-left aligned, zeros elsewhere); both fail on the empty list alike. -/
theorem c8_onnx_batch_images_eq (images : List Image) (size_divisible : ℕ) :
    onnx_batch_images images size_divisible =
      batch_images images size_divisible := by
  cases images with
  | nil => rfl
  | cons img0 rest =>
      simp only [batch_images, onnx_batch_images, List.map_cons, max_by_axis,
        foldl_tripleMax_proj, List.map_map]
      rfl

/-- C2: for every non-empty image list and positive stride, `batch_images`
returns a batch with one slot per image whose channel dimension is the
maximum channel count, whose height and width are the smallest multiples of
the stride greater than or equal to every image height resp. width, in which
every pixel of image `i` appears unchanged at the same
(channel, row, column) index of slot `i`, and whose remaining entries are
zero. -/
theorem c2_batch_images_spec (images : List Image) (size_divisible : ℕ)
    (hne : images ≠ []) (hs : 0 < size_divisible) :
    ∃ B : Batch, batch_images images size_divisible = some B ∧
      B.N = images.length ∧
      (∀ img ∈ images, img.C ≤ B.C) ∧ B.C ∈ images.map Image.C ∧
      size_divisible ∣ B.H ∧ (∀ img ∈ images, img.H ≤ B.H) ∧
      (∀ k, size_divisible ∣ k → (∀ img ∈ images, img.H ≤ k) → B.H ≤ k) ∧
      size_divisible ∣ B.W ∧ (∀ img ∈ images, img.W ≤ B.W) ∧
      (∀ k, size_divisible ∣ k → (∀ img ∈ images, img.W ≤ k) → B.W ≤ k) ∧
      (∀ (i c y x : ℕ) (img : Image), images[i]? = some img →
        c < img.C → y < img.H → x < img.W → B.px i c y x = img.px c y x) ∧
      (∀ (i c y x : ℕ) (img : Image), images[i]? = some img →
        ¬(c < img.C ∧ y < img.H ∧ x < img.W) → B.px i c y x = 0) := by
  cases images with
  | nil => exact absurd rfl hne
  | cons img0 rest =>
      have hbatch : batch_images (img0 :: rest) size_divisible =
          some { N := (img0 :: rest).length
                 C := (rest.map Image.C).foldl max img0.C
                 H := roundUpToMultiple ((rest.map Image.H).foldl max img0.H)
                        size_divisible
                 W := roundUpToMultiple ((rest.map Image.W).foldl max img0.W)
                        size_divisible
                 px := fun i c y x =>
                   match (img0 :: rest)[i]? with
                   | none => 0
                   | some img =>
                       if c < img.C ∧ y < img.H ∧ x < img.W then img.px c y x
                       else 0 } := by
        simp only [batch_images, List.map_cons, max_by_axis,
          foldl_tripleMax_proj, List.map_map]
        rfl
      refine ⟨_, hbatch, rfl, ?_, ?_, roundUp_dvd _ _, ?_, ?_,
        roundUp_dvd _ _, ?_, ?_, ?_, ?_⟩
      · intro img hmem
        rcases List.mem_cons.mp hmem with rfl | hmem2
        · exact le_foldl_max_init (rest.map Image.C) img.C
        · exact foldl_max_le_of_mem img0.C (List.mem_map_of_mem Image.C hmem2)
      · rcases foldl_max_mem (rest.map Image.C) img0.C with h | h
        · rw [List.map_cons, h]
          exact List.mem_cons_self _ _
        · rw [List.map_cons]
          exact List.mem_cons_of_mem _ h
      · intro img hmem
        refine le_trans ?_ (roundUp_ge _ _ hs)
        rcases List.mem_cons.mp hmem with rfl | hmem2
        · exact le_foldl_max_init (rest.map Image.H) img.H
        · exact foldl_max_le_of_mem img0.H (List.mem_map_of_mem Image.H hmem2)
      · intro k hdvd hall
        refine roundUp_min _ _ _ hs hdvd ?_
        refine foldl_max_le (hall img0 (List.mem_cons_self _ _)) ?_
        intro x hx
        obtain ⟨img, himg, rfl⟩ := List.mem_map.mp hx
        exact hall img (List.mem_cons_of_mem _ himg)
      · intro img hmem
        refine le_trans ?_ (roundUp_ge _ _ hs)
        rcases List.mem_cons.mp hmem with rfl | hmem2
        · exact le_foldl_max_init (rest.map Image.W) img.W
        · exact foldl_max_le_of_mem img0.W (List.mem_map_of_mem Image.W hmem2)
      · intro k hdvd hall
        refine roundUp_min _ _ _ hs hdvd ?_
        refine foldl_max_le (hall img0 (List.mem_cons_self _ _)) ?_
        intro x hx
        obtain ⟨img, himg, rfl⟩ := List.mem_map.mp hx
        exact hall img (List.mem_cons_of_mem _ himg)
      · intro i c y x img hi hc hy hx
        show (match (img0 :: rest)[i]? with
          | none => (0 : ℚ)
          | some img =>
              if c < img.C ∧ y < img.H ∧ x < img.W then img.px c y x
              else 0) = img.px c y x
        rw [hi]
        simp [hc, hy, hx]
      · intro i c y x img hi hcond
        show (match (img0 :: rest)[i]? with
          | none => (0 : ℚ)
          | some img =>
              if c < img.C ∧ y < img.H ∧ x < img.W then img.px c y x
              else 0) = (0 : ℚ)
        rw [hi]
        simp only [if_neg hcond]

/-- Witness for C2 on a concrete two-image list with stride `2`. -/
theorem c2_witness :
    ∃ B : Batch,
      batch_images [⟨1, 2, 3, fun _ _ _ => 5⟩, ⟨2, 3, 1, fun _ _ _ => 7⟩] 2 =
        some B ∧
      B.N = ([⟨1, 2, 3, fun _ _ _ => 5⟩, ⟨2, 3, 1, fun _ _ _ => 7⟩] :
        List Image).length ∧
      (∀ img ∈ ([⟨1, 2, 3, fun _ _ _ => 5⟩, ⟨2, 3, 1, fun _ _ _ => 7⟩] :
        List Image), img.C ≤ B.C) ∧
      B.C ∈ ([⟨1, 2, 3, fun _ _ _ => 5⟩, ⟨2, 3, 1, fun _ _ _ => 7⟩] :
        List Image).map Image.C ∧
      2 ∣ B.H ∧
      (∀ img ∈ ([⟨1, 2, 3, fun _ _ _ => 5⟩, ⟨2, 3, 1, fun _ _ _ => 7⟩] :
        List Image), img.H ≤ B.H) ∧
      (∀ k, 2 ∣ k →
        (∀ img ∈ ([⟨1, 2, 3, fun _ _ _ => 5⟩, ⟨2, 3, 1, fun _ _ _ => 7⟩] :
          List Image), img.H ≤ k) → B.H ≤ k) ∧
      2 ∣ B.W ∧
      (∀ img ∈ ([⟨1, 2, 3, fun _ _ _ => 5⟩, ⟨2, 3, 1, fun _ _ _ => 7⟩] :
        List Image), img.W ≤ B.W) ∧
      (∀ k, 2 ∣ k →
        (∀ img ∈ ([⟨1, 2, 3, fun _ _ _ => 5⟩, ⟨2, 3, 1, fun _ _ _ => 7⟩] :
          List Image), img.W ≤ k) → B.W ≤ k) ∧
      (∀ (i c y x : ℕ) (img : Image),
        ([⟨1, 2, 3, fun _ _ _ => 5⟩, ⟨2, 3, 1, fun _ _ _ => 7⟩] :
          List Image)[i]? = some img →
        c < img.C → y < img.H → x < img.W → B.px i c y x = img.px c y x) ∧
      (∀ (i c y x : ℕ) (img : Image),
        ([⟨1, 2, 3, fun _ _ _ => 5⟩, ⟨2, 3, 1, fun _ _ _ => 7⟩] :
          List Image)[i]? = some img →
        ¬(c < img.C ∧ y < img.H ∧ x < img.W) → B.px i c y x = 0) :=
  c2_batch_images_spec [⟨1, 2, 3, fun _ _ _ => 5⟩, ⟨2, 3, 1, fun _ _ _ => 7⟩] 2
    (List.cons_ne_nil _ _) (by norm_num)
